import Mathlib

/-
  Verification of the claude-code-copilot-router protocol-translation gateway.

  Shallow embedding of the three source files:
  - the Express handler for POST /v1/messages (request normalization, tool
    sanitization, and the streaming response state machine),
  - the sanitizeJson utility (cycle-breaking JSON cleanup),
  against the natural-language specification.

  JavaScript machine integers and floats never matter for the verified
  properties; JSON numbers are modelled as Int.  JSON.parse and Date.now are
  platform builtins, modelled as explicit parameters of the stream session.
-/

namespace CCR

/-- JSON-like value as it appears in request bodies and tool inputs.
JS distinguishes absent (undefined) from null; absence is modelled with
Option at use sites and null with the jnull constructor. -/
inductive JsonV where
  | jnull
  | jbool (b : Bool)
  | jnum (n : Int)
  | jstr (s : String)
  | jarr (items : List JsonV)
  | jobj (fields : List (String × JsonV))

/-- Emptiness of a string through its character list; equivalent to
String.isEmpty but reducible by the kernel, so concrete witnesses can be
checked by decide and rfl. -/
def strIsEmpty (s : String) : Bool :=
  s.toList.isEmpty

/-- Prefix test through character lists; equivalent to String.startsWith
but reducible by the kernel. -/
def strStartsWith (s pre : String) : Bool :=
  pre.toList.isPrefixOf s.toList

/-- JS truthiness of a JSON value: null, false, 0 and the empty string are
falsy; every object and array is truthy. -/
def truthyJ : JsonV → Bool
  | .jnull => false
  | .jbool b => b
  | .jnum n => decide (n ≠ 0)
  | .jstr s => !strIsEmpty s
  | .jarr _ => true
  | .jobj _ => true

/-- JSON string escaping as performed by JSON.stringify for the characters
that can occur in this development. -/
def escChar (c : Char) : String :=
  if c = '"' then "\\\""
  else if c = '\\' then "\\\\"
  else if c = '\n' then "\\n"
  else if c = '\r' then "\\r"
  else if c = '\t' then "\\t"
  else String.singleton c

/-- Escape every character of a string for JSON output. -/
def escapeStr (s : String) : String :=
  String.join (s.toList.map escChar)

mutual

/-- Embedding of JSON.stringify on pure JSON values (no spacing argument). -/
def stringifyJ : JsonV → String
  | .jnull => "null"
  | .jbool b => if b then "true" else "false"
  | .jnum n => toString n
  | .jstr s => "\"" ++ escapeStr s ++ "\""
  | .jarr items => "[" ++ stringifyList items ++ "]"
  | .jobj fields => "\x7b" ++ stringifyFields fields ++ "\x7d"

/-- Comma-separated stringification of array elements. -/
def stringifyList : List JsonV → String
  | [] => ""
  | [x] => stringifyJ x
  | x :: y :: rest => stringifyJ x ++ "," ++ stringifyList (y :: rest)

/-- Comma-separated stringification of object fields. -/
def stringifyFields : List (String × JsonV) → String
  | [] => ""
  | [(k, v)] => "\"" ++ escapeStr k ++ "\":" ++ stringifyJ v
  | (k, v) :: p :: rest =>
      "\"" ++ escapeStr k ++ "\":" ++ stringifyJ v ++ "," ++ stringifyFields (p :: rest)

end

/-! ## ContentNormalizer: mapping of one content item (server file, messages.map) -/

/-- Shape of the source field of a Claude-style image item. -/
structure ImgSource where
  type : Option String := none
  media_type : Option String := none
  data : Option String := none

/-- Shape of the inbound image_url field (OpenAI-style image item). -/
structure ImgUrl where
  url : Option String := none

/-- Inbound content item as read by the handler; every field the code
consults is optional, matching optional chaining in the source. -/
structure CItem where
  type : Option String := none
  source : Option ImgSource := none
  image_url : Option ImgUrl := none
  url : Option String := none
  content : Option JsonV := none
  text : Option String := none

/-- JS truthiness of an optional string field: present and non-empty. -/
def truthyStr (o : Option String) : Bool :=
  match o with
  | some s => !strIsEmpty s
  | none => false

/-- Embedding of the image-URL extraction chain: a Claude-style source object
(base64 data is turned into a data URL, other data is used verbatim), else
image_url.url, else a bare url field, else the empty string. -/
def extractImageUrl (it : CItem) : String :=
  if it.type = some "image" ∧ it.source.isSome then
    match it.source with
    | some src =>
        if src.type = some "base64" ∧ truthyStr src.data then
          "data:" ++
            (match src.media_type with
             | some m => if strIsEmpty m then "image/png" else m
             | none => "image/png") ++
            ";base64," ++ src.data.getD ""
        else if truthyStr src.data then src.data.getD ""
        else ""
    | none => ""
  else if truthyStr (match it.image_url with | some iu => iu.url | none => none) then
    match it.image_url with
    | some iu => iu.url.getD ""
    | none => ""
  else if truthyStr it.url then it.url.getD ""
  else ""

/-- Output image object written by the success branch. -/
structure OutImg where
  url : String
  detail : String

/-- Normalized content item produced by the mapping.  JS reuses the single
key image_url for both the inbound shape (carried over by object spread in
the non-image branch) and the outbound shape (set by the image success
branch); the two are split here into orig_image_url and image_url. -/
structure MItem where
  type : String
  text : Option String := none
  source : Option ImgSource := none
  url : Option String := none
  content : Option JsonV := none
  image_url : Option OutImg := none
  orig_image_url : Option ImgUrl := none

/-- Placeholder text emitted when no image URL could be extracted. -/
def imageNotFoundMsg : String :=
  "[이미지를 찾을 수 없습니다. 이미지가 제대로 업로드되었는지 확인해주세요.]"

/-- Placeholder text emitted for local file:// images. -/
def localImageMsg : String :=
  "[로컬 이미지는 OpenRouter로 전송할 수 없습니다. 이미지를 base64로 인코딩하거나 외부 URL을 사용해주세요.]"

/-- Placeholder text emitted for unsupported image URL schemes. -/
def unsupportedImageMsg : String :=
  "[지원하지 않는 이미지 형식입니다]"

/-- Text body chosen by the non-image branch: JSON.stringify of the content
field when that field is truthy, else the text field, else the empty
string. -/
def textBody (it : CItem) : String :=
  match it.content with
  | some c => if truthyJ c then stringifyJ c else it.text.getD ""
  | none => it.text.getD ""

/-- Embedding of the per-item content mapping of the /v1/messages handler:
image items go through the URL extraction chain and scheme dispatch; every
other item (tool_use, tool_result, text, anything else) becomes a text item
via object spread, with the content field deleted. -/
def mapContentItem (it : CItem) : MItem :=
  if it.type = some "image_url" ∨ it.type = some "image" then
    let imageUrl := extractImageUrl it
    if strIsEmpty imageUrl then
      { type := "text", text := some imageNotFoundMsg }
    else if strStartsWith imageUrl "file://" then
      { type := "text", text := some localImageMsg }
    else if strStartsWith imageUrl "data:" ∨ strStartsWith imageUrl "http" then
      { type := "image_url", image_url := some ⟨imageUrl, "auto"⟩ }
    else
      { type := "text", text := some unsupportedImageMsg }
  else
    { type := "text"
      text := some (textBody it)
      source := it.source
      url := it.url
      content := none
      orig_image_url := it.image_url }

/-! ## RequestNormalizer: array guards of the /v1/messages handler -/

/-- Inbound request body restricted to the three sequence-valued fields the
array guards normalize; a missing field is none, JS null is some jnull. -/
structure ReqBody where
  messages : Option JsonV := none
  tools : Option JsonV := none
  system : Option JsonV := none

/-- Embedding of the array guard: a present array passes through, anything
else (absent, null, wrong type) becomes the empty sequence. -/
def ensureArray (o : Option JsonV) : List JsonV :=
  match o with
  | some (.jarr l) => l
  | _ => []

/-- Holds of a field value that is absent, null, or of non-array type. -/
def notArray (o : Option JsonV) : Prop :=
  match o with
  | some (.jarr _) => False
  | _ => True

/-! ## ToolSchemaSanitizer: safeName (tool function-name sanitization) -/

/-- Character class of the regex [a-zA-Z0-9_.-] used by the first replace. -/
def isAllowedChar (c : Char) : Bool :=
  c.isAlpha || c.isDigit || c = '_' || c = '.' || c = '-'

/-- Character class [a-zA-Z_] required of the first character. -/
def isStartChar (c : Char) : Bool :=
  c.isAlpha || c = '_'

/-- First replace: every character outside [a-zA-Z0-9_.-] becomes an
underscore (global replacement). -/
def replaceDisallowed (l : List Char) : List Char :=
  l.map fun c => if isAllowedChar c then c else '_'

/-- Second replace: the leading maximal run of characters outside [a-zA-Z_]
is collapsed to a single underscore; the regex is anchored and requires at
least one character, so a string with a good first character is unchanged. -/
def fixLeading (l : List Char) : List Char :=
  match l with
  | [] => []
  | c :: _ => if isStartChar c then l else '_' :: l.dropWhile (fun d => !isStartChar d)

/-- Embedding of safeName: allowed-character replacement, first-character
correction, then truncation to 64 characters. -/
def safeName (name : List Char) : List Char :=
  (fixLeading (replaceDisallowed name)).take 64

/-! ## StreamTranslator: the response state machine of the /v1/messages handler

JSON.parse and Date.now are platform builtins; the session takes a parse
function and an id source (indexed by chunk position) as parameters. -/

/-- Function part of one upstream tool call; a missing name or a missing
arguments string is modelled as the empty string, which JS treats the same
as absent in every consultation the code performs (truthiness checks). -/
structure ToolCallFn where
  name : String := ""
  arguments : String := ""

/-- One entry of the delta tool_calls array. -/
structure ToolCall where
  function : ToolCallFn

/-- Delta carried by one upstream chunk choice; absent content is the empty
string (same falsy behavior). -/
structure Delta where
  content : String := ""
  tool_calls : List ToolCall := []

/-- One element of the chunk choices array. -/
structure Choice where
  delta : Option Delta := none

/-- One raw upstream chunk. -/
structure Chunk where
  choices : List Choice := []

/-- Defensive extraction of chunk.choices[0].delta performed at the top of
the loop body. -/
def getDelta (c : Chunk) : Option Delta :=
  match c.choices with
  | choice :: _ => choice.delta
  | [] => none

/-- One entry of currentContentBlocks.  JS objects are open records; the
optional fields mirror which keys each push statement sets. -/
structure CBlock where
  type : String
  text : Option String := none
  id : Option String := none
  name : Option String := none
  input : Option JsonV := none

/-- Mutable state threaded through the streaming loop. -/
structure SState where
  currentContentBlocks : List CBlock
  toolUseJson : String
  isToolUse : Bool
  hasStartedTextBlock : Bool
  contentBlockIndex : Nat

/-- State initialization at the top of the handler. -/
def initialState : SState :=
  { currentContentBlocks := []
    toolUseJson := ""
    isToolUse := false
    hasStartedTextBlock := false
    contentBlockIndex := 0 }

/-- State written by the finally block: every field is re-initialized
before the terminal events are constructed. -/
def cleanupState : SState :=
  { currentContentBlocks := []
    toolUseJson := ""
    isToolUse := false
    hasStartedTextBlock := false
    contentBlockIndex := 0 }

/-- Payload of a content_block_start event. -/
inductive BlockStart where
  | textStart
  | toolStart (id : String) (name : String)

/-- Payload of a content_block_delta event. -/
inductive DeltaEv where
  | textDelta (text : String)
  | inputJsonDelta (partialJson : String)

/-- SSE events written by the handler, with the fields the code sets. -/
inductive Event where
  | message_start (id : String) (model : String) (input_tokens output_tokens : Nat)
  | content_block_start (index : Nat) (content_block : BlockStart)
  | content_block_delta (index : Nat) (delta : DeltaEv)
  | content_block_stop (index : Nat)
  | message_delta (stop_reason : String) (content : List CBlock)
      (input_tokens output_tokens : Nat)
  | message_stop

/-- Branch for a delta carrying a non-empty tool_calls array: open a new
tool_use block unless one is already open, then stream the arguments
fragment, accumulate it, and try to parse the accumulated JSON. -/
def stepToolCalls (parse : String → Option JsonV) (toolId : String)
    (s : SState) (toolCall : ToolCall) : SState × List Event :=
  let startPair :=
    if s.isToolUse then (s, ([] : List Event))
    else
      ({ s with
          isToolUse := true
          currentContentBlocks := s.currentContentBlocks ++
            [{ type := "tool_use"
               id := some toolId
               name := some toolCall.function.name
               input := some (.jobj []) }]
          toolUseJson := "" },
        [Event.content_block_start s.contentBlockIndex
          (.toolStart toolId toolCall.function.name)])
  let s1 := startPair.1
  let evs1 := startPair.2
  if strIsEmpty toolCall.function.arguments then (s1, evs1)
  else
    let tj := s1.toolUseJson ++ toolCall.function.arguments
    let blocks :=
      match parse tj with
      | some v =>
          s1.currentContentBlocks.mapIdx fun i b =>
            if i = s1.contentBlockIndex then { b with input := some v } else b
      | none => s1.currentContentBlocks
    ({ s1 with toolUseJson := tj, currentContentBlocks := blocks },
      evs1 ++ [Event.content_block_delta s1.contentBlockIndex
        (.inputJsonDelta toolCall.function.arguments)])

/-- Branch for a delta carrying non-empty text content: close an open tool
block (advancing the index), open the text block if none was ever opened,
then append and stream the text fragment. -/
def stepContent (s : SState) (content : String) : SState × List Event :=
  let closePair :=
    if s.isToolUse then
      ({ s with contentBlockIndex := s.contentBlockIndex + 1, isToolUse := false },
        [Event.content_block_stop s.contentBlockIndex])
    else (s, ([] : List Event))
  let s1 := closePair.1
  let evs1 := closePair.2
  let openPair :=
    if s1.hasStartedTextBlock then (s1, ([] : List Event))
    else
      ({ s1 with
          currentContentBlocks := s1.currentContentBlocks ++
            [{ type := "text", text := some "" }]
          hasStartedTextBlock := true },
        [Event.content_block_start s1.contentBlockIndex .textStart])
  let s2 := openPair.1
  let evs2 := openPair.2
  let blocks :=
    if s2.contentBlockIndex < s2.currentContentBlocks.length then
      s2.currentContentBlocks.mapIdx fun i b =>
        if i = s2.contentBlockIndex then
          { b with text := some ((match b.text with
              | some t => t
              | none => "undefined") ++ content) }
        else b
    else s2.currentContentBlocks
  ({ s2 with currentContentBlocks := blocks },
    evs1 ++ evs2 ++
      [Event.content_block_delta s2.contentBlockIndex (.textDelta content)])

/-- One loop iteration on an extracted delta: the tool_calls branch wins
when the array is non-empty, else the content branch when content is
truthy, else nothing happens. -/
def stepDelta (parse : String → Option JsonV) (toolId : String)
    (s : SState) (d : Delta) : SState × List Event :=
  match d.tool_calls with
  | toolCall :: _ => stepToolCalls parse toolId s toolCall
  | [] => if strIsEmpty d.content then (s, []) else stepContent s d.content

/-- The for-await loop over upstream chunks; ids supplies the value of
Date.now at each chunk position. -/
def runLoop (parse : String → Option JsonV) (ids : Nat → String) :
    Nat → SState → List Chunk → SState × List Event
  | _, s, [] => (s, [])
  | i, s, c :: rest =>
    match getDelta c with
    | none => runLoop parse ids (i + 1) s rest
    | some d =>
      let p := stepDelta parse (ids i) s d
      let q := runLoop parse ids (i + 1) p.1 rest
      (q.1, p.2 ++ q.2)

/-- Terminal events written after the loop: closing content_block_stop,
message_delta with stop_reason and accumulated blocks, message_stop.
The argument is the state these lines observe. -/
def finalize (s : SState) : List Event :=
  [ Event.content_block_stop s.contentBlockIndex,
    Event.message_delta (if s.isToolUse then "tool_use" else "end_turn")
      s.currentContentBlocks 100 150,
    Event.message_stop ]

/-- Whole response session: message_start, loop events, then the terminal
events.  The finally block of the source runs when the loop finishes and
resets every state variable, so the terminal events observe cleanupState,
not the state the loop ended in. -/
def session (parse : String → Option JsonV) (ids : Nat → String)
    (msgId model : String) (chunks : List Chunk) : List Event :=
  Event.message_start msgId model 1 1 ::
    ((runLoop parse ids 0 initialState chunks).2 ++ finalize cleanupState)

/-! ## Observation helpers over event lists -/

/-- Count of content_block_start events whose block is a text block. -/
def countTextStarts (evs : List Event) : Nat :=
  evs.countP fun e =>
    match e with
    | .content_block_start _ .textStart => true
    | _ => false

/-- Count of content_block_stop events. -/
def countStops (evs : List Event) : Nat :=
  evs.countP fun e =>
    match e with
    | .content_block_stop _ => true
    | _ => false

/-- Index fields of all content-block events, in emission order. -/
def eventIndices (evs : List Event) : List Nat :=
  evs.filterMap fun e =>
    match e with
    | .content_block_start i _ => some i
    | .content_block_delta i _ => some i
    | .content_block_stop i => some i
    | _ => none

/-- Usage pairs of all message_delta events, in emission order. -/
def msgDeltaUsages (evs : List Event) : List (Nat × Nat) :=
  evs.filterMap fun e =>
    match e with
    | .message_delta _ _ a b => some (a, b)
    | _ => none

/-! ## sanitizeJson (utils file)

JS values form an object graph with reference identity: cycles are possible
and the WeakSet seen tracks objects by identity.  The graph is modelled as a
finite heap of nodes addressed by Nat; a JS value is a primitive or a
reference into the heap.  The WeakSet is the list of visited addresses,
threaded through the traversal exactly as the single mutated WeakSet is in
the source.  The recursion is fuel-indexed; the out-of-fuel outcome (outer
none) never occurs for sufficient fuel, which is the termination theorem. -/

/-- JS primitive values distinguished by the typeof checks. -/
inductive Prim where
  | pnull
  | pundef
  | pfun
  | psym
  | pbool (b : Bool)
  | pnum (n : Int)
  | pstr (s : String)

/-- A JS value: a primitive or a reference to a heap node. -/
inductive RVal where
  | prim (p : Prim)
  | ref (r : Nat)

/-- Content of one heap node: an array or a plain object. -/
inductive NodeContent where
  | arrNode (items : List RVal)
  | objNode (fields : List (String × RVal))

/-- The object heap; addresses are list positions. -/
def JHeap := List NodeContent

/-- Detection of stringification artifacts of non-serializable objects. -/
def isArtifactStr (s : String) : Bool :=
  s.trim = "[Object]" || s.trim = "[object Object]" ||
    strStartsWith s.trim "[object" || strStartsWith s.trim "\x7b [native code]"

/-- Result of sanitizing a primitive: null, undefined, functions, symbols
and artifact strings are dropped; booleans, numbers and other strings pass
through (typeof obj not object returns obj). -/
def sanitizePrim (p : Prim) : Option JsonV :=
  match p with
  | .pnull => none
  | .pundef => none
  | .pfun => none
  | .psym => none
  | .pbool b => some (.jbool b)
  | .pnum n => some (.jnum n)
  | .pstr s => if isArtifactStr s then none else some (.jstr s)

/-- Pre-recursion skip performed on each raw object field value: functions,
symbols, undefined and null are skipped without recursing. -/
def skipRawField (v : RVal) : Bool :=
  match v with
  | .prim .pfun => true
  | .prim .psym => true
  | .prim .pundef => true
  | .prim .pnull => true
  | _ => false

/-- Post-recursion artifact re-check on sanitized object field values. -/
def isArtifactJson (j : JsonV) : Bool :=
  match j with
  | .jstr s => isArtifactStr s
  | _ => false

mutual

/-- Fuel-indexed embedding of sanitizeJson on one value.  Inner Option is
the undefined result (dropped value); outer none means out of fuel.  Fuel
is consumed only when entering an unvisited heap node, so heap size bounds
the fuel ever needed. -/
def sanR (h : List NodeContent) : Nat → RVal → List Nat → Option (Option JsonV × List Nat)
  | _, .prim p, seen => some (sanitizePrim p, seen)
  | fuel, .ref r, seen =>
    if r ∈ seen then some (none, seen)
    else
      match fuel with
      | 0 => none
      | fuel' + 1 =>
        match h.get? r with
        | none => some (none, seen)
        | some (.arrNode items) =>
          (sanArr h fuel' items (r :: seen)).bind fun p =>
            some (some (.jarr p.1), p.2)
        | some (.objNode fields) =>
          (sanObj h fuel' fields (r :: seen)).bind fun p =>
            some (some (.jobj p.1), p.2)

/-- Array branch: map sanitization over the items (threading the visited
set) and filter out dropped elements. -/
def sanArr (h : List NodeContent) : Nat → List RVal → List Nat → Option (List JsonV × List Nat)
  | _, [], seen => some ([], seen)
  | fuel, v :: rest, seen =>
    (sanR h fuel v seen).bind fun p =>
      (sanArr h fuel rest p.2).bind fun q =>
        match p.1 with
        | some j => some (j :: q.1, q.2)
        | none => some (q.1, q.2)

/-- Object branch: the entries loop with the raw-value skip, recursive
sanitization, and the dropped-or-artifact check before insertion. -/
def sanObj (h : List NodeContent) : Nat → List (String × RVal) → List Nat →
    Option (List (String × JsonV) × List Nat)
  | _, [], seen => some ([], seen)
  | fuel, (k, v) :: rest, seen =>
    if skipRawField v then sanObj h fuel rest seen
    else
      (sanR h fuel v seen).bind fun p =>
        (sanObj h fuel rest p.2).bind fun q =>
          match p.1 with
          | some j =>
            if isArtifactJson j then some (q.1, q.2) else some ((k, j) :: q.1, q.2)
          | none => some (q.1, q.2)

end

/-- Top-level sanitizeJson: empty visited set and fuel one larger than the
heap, which the termination theorem shows is always enough. -/
def sanitizeJson (h : JHeap) (v : RVal) : Option (Option JsonV × List Nat) :=
  sanR h (h.length + 1) v []

/-- Number of heap addresses not yet visited. -/
def unseenCount (h : JHeap) (seen : List Nat) : Nat :=
  (List.range h.length).countP fun r => decide (r ∉ seen)

/-! ## Theorems -/

theorem ensureArray_eq_nil (o : Option JsonV) (h : notArray o) : ensureArray o = [] := by
  cases o with
  | none => rfl
  | some v =>
    cases v with
    | jarr l => exact h.elim
    | jnull => rfl
    | jbool b => rfl
    | jnum n => rfl
    | jstr s => rfl
    | jobj f => rfl

/-- C4: for every inbound request body, each of the fields messages, tools
and system that is absent, null, or of non-array type is normalized to the
empty sequence; the guard is a total function, so normalization of those
three fields never fails. -/
theorem claim_C4_array_guards (b : ReqBody) :
    (notArray b.messages → ensureArray b.messages = []) ∧
    (notArray b.tools → ensureArray b.tools = []) ∧
    (notArray b.system → ensureArray b.system = []) :=
  ⟨ensureArray_eq_nil b.messages, ensureArray_eq_nil b.tools, ensureArray_eq_nil b.system⟩

/-- Witness for C4 at a body whose messages field is null, tools field is
absent and system field is a plain string. -/
theorem claim_C4_witness :
    ensureArray (ReqBody.mk (some .jnull) none (some (.jstr "hi"))).messages = [] ∧
    ensureArray (ReqBody.mk (some .jnull) none (some (.jstr "hi"))).tools = [] ∧
    ensureArray (ReqBody.mk (some .jnull) none (some (.jstr "hi"))).system = [] :=
  ⟨(claim_C4_array_guards _).1 True.intro,
    (claim_C4_array_guards _).2.1 True.intro,
    (claim_C4_array_guards _).2.2 True.intro⟩

theorem allowed_of_mem_replace {l : List Char} {c : Char}
    (hc : c ∈ replaceDisallowed l) : isAllowedChar c = true := by
  unfold replaceDisallowed at hc
  rcases List.mem_map.mp hc with ⟨a, _, rfl⟩
  by_cases ha : isAllowedChar a = true
  · simp [ha]
  · simp only [ha, if_false, Bool.false_eq_true]
    decide

theorem allowed_of_mem_fixLeading {l : List Char}
    (hall : ∀ c ∈ l, isAllowedChar c = true) :
    ∀ c ∈ fixLeading l, isAllowedChar c = true := by
  unfold fixLeading
  cases l with
  | nil => simp
  | cons a t =>
    by_cases ha : isStartChar a = true
    · simpa [ha] using hall
    · simp only [ha, if_false, Bool.false_eq_true]
      intro c hc
      rcases List.mem_cons.mp hc with rfl | hc
      · decide
      · exact hall _ ((List.dropWhile_sublist _).subset hc)

theorem fixLeading_head {l : List Char} (hne : l ≠ []) :
    ∃ c rest, fixLeading l = c :: rest ∧ isStartChar c = true := by
  unfold fixLeading
  cases l with
  | nil => exact absurd rfl hne
  | cons a t =>
    by_cases ha : isStartChar a = true
    · exact ⟨a, t, by simp [ha], ha⟩
    · exact ⟨'_', (a :: t).dropWhile (fun d => !isStartChar d), by simp [ha], by decide⟩

/-- C5: for every surviving tool definition (non-empty name), the sanitized
function name contains only characters of [A-Za-z0-9_.-], starts with a
letter or underscore, and has length at most 64 — in particular the result
is non-empty even when the original name has no allowed characters. -/
theorem claim_C5_safeName (name : List Char) (h : name ≠ []) :
    (∀ c ∈ safeName name, isAllowedChar c = true) ∧
    (∃ c rest, safeName name = c :: rest ∧ isStartChar c = true) ∧
    (safeName name).length ≤ 64 := by
  have h1 : replaceDisallowed name ≠ [] := by
    unfold replaceDisallowed
    simpa using h
  obtain ⟨c, rest, heq, hstart⟩ := fixLeading_head h1
  refine ⟨?_, ?_, ?_⟩
  · intro x hx
    have hx' : x ∈ fixLeading (replaceDisallowed name) :=
      List.take_subset _ _ hx
    exact allowed_of_mem_fixLeading (fun d hd => allowed_of_mem_replace hd) _ hx'
  · refine ⟨c, rest.take 63, ?_, hstart⟩
    unfold safeName
    rw [heq, List.take_succ_cons]
  · unfold safeName
    simp [List.length_take]

/-- Witness for C5 at a name that begins with digits and contains
disallowed characters. -/
theorem claim_C5_witness :
    (∀ c ∈ safeName ("123 tool!".toList), isAllowedChar c = true) ∧
    (∃ c rest, safeName ("123 tool!".toList) = c :: rest ∧ isStartChar c = true) ∧
    (safeName ("123 tool!".toList)).length ≤ 64 :=
  claim_C5_safeName _ (by decide)

/-- C7: every content item whose type is not an image type (tool_use,
tool_result, or anything else) is mapped to a text item whose body is
JSON.stringify of its content field when that field is present and truthy,
else its text field, else the empty string, with the content field removed;
in particular a tool_result item with payload x=1 maps to the text item
with body the serialized object. -/
theorem claim_C7_nonimage :
    (∀ it : CItem, ¬(it.type = some "image_url" ∨ it.type = some "image") →
      mapContentItem it =
        { type := "text"
          text := some (textBody it)
          source := it.source
          url := it.url
          content := none
          image_url := none
          orig_image_url := it.image_url }) ∧
    mapContentItem { type := some "tool_result", content := some (.jobj [("x", .jnum 1)]) } =
      { type := "text", text := some "\x7b\"x\":1\x7d" } := by
  constructor
  · intro it h
    unfold mapContentItem
    rw [if_neg h]
  · simp only [mapContentItem, textBody, truthyJ, stringifyJ, stringifyFields,
      escapeStr, escChar]
    rfl

/-- Witness for C7 at a non-image item carrying both a content payload and
a text field; the theorem is applied with its hypothesis discharged. -/
theorem claim_C7_witness :
    mapContentItem { type := some "tool_use", content := some (.jobj [("x", .jnum 1)]), text := some "t" } =
      { type := "text"
        text := some (textBody { type := some "tool_use", content := some (.jobj [("x", .jnum 1)]), text := some "t" })
        source := none
        url := none
        content := none
        image_url := none
        orig_image_url := none } :=
  claim_C7_nonimage.1 _ (by simp)

theorem startsWith_file_not_empty {s : String}
    (h : strStartsWith s "file://" = true) : strIsEmpty s = false := by
  unfold strStartsWith at h
  unfold strIsEmpty
  cases hd : s.toList with
  | nil => rw [hd] at h; exact absurd h (by decide)
  | cons a t => simp

/-- C8: every image content item whose extracted URL has the file scheme is
mapped to the local-file text placeholder and never to an image_url item. -/
theorem claim_C8_file_url (it : CItem)
    (himg : it.type = some "image_url" ∨ it.type = some "image")
    (hfile : strStartsWith (extractImageUrl it) "file://" = true) :
    mapContentItem it = { type := "text", text := some localImageMsg } ∧
    (mapContentItem it).image_url = none := by
  have hne : strIsEmpty (extractImageUrl it) = false := startsWith_file_not_empty hfile
  have hmap : mapContentItem it = { type := "text", text := some localImageMsg } := by
    unfold mapContentItem
    rw [if_pos himg]
    simp only [hne, Bool.false_eq_true, if_false, hfile, if_true]
  exact ⟨hmap, by rw [hmap]⟩

/-- Witness for C8 at an image_url item pointing at a local file. -/
theorem claim_C8_witness :
    mapContentItem { type := some "image_url", image_url := some ⟨some "file:///tmp/x.png"⟩ } =
      { type := "text", text := some localImageMsg } ∧
    (mapContentItem { type := some "image_url", image_url := some ⟨some "file:///tmp/x.png"⟩ }).image_url = none :=
  claim_C8_file_url _ (Or.inl rfl) (by decide)

/-! ## Concrete stream inputs used by the stream-translator claims -/

/-- Parse function that fails on every input; models JSON.parse on runs
whose accumulated buffers never form complete JSON. -/
def parse0 : String → Option JsonV := fun _ => none

/-- Constant id source; models Date.now returning the same tick. -/
def ids0 : Nat → String := fun _ => "toolu_1"

/-- Parsed value of the tool-call arguments of the spec scenario. -/
def qxJson : JsonV := .jobj [("q", .jstr "x")]

/-- Model of JSON.parse on the strings occurring in the spec scenario: the
complete buffer parses to qxJson, every proper prefix fails. -/
def parseQX : String → Option JsonV :=
  fun s => if s = "\x7b\"q\":\"x\"\x7d" then some qxJson else none

/-- Chunk whose delta carries one tool call. -/
def toolChunk (name args : String) : Chunk :=
  { choices := [{ delta := some { tool_calls := [⟨⟨name, args⟩⟩] } }] }

/-- Chunk whose delta carries plain text content. -/
def textChunk (t : String) : Chunk :=
  { choices := [{ delta := some { content := t } }] }

/-- Two-chunk tool-call stream of the spec §8 scenario. -/
def c1chunks : List Chunk :=
  [toolChunk "lookup" "\x7b\"q\":", toolChunk "" "\"x\"\x7d"]

/-- Text followed by a tool call: a text block is open when tool_calls
arrive. -/
def c2chunks : List Chunk :=
  [textChunk "a", toolChunk "lookup" ""]

/-- Tool call followed by text: the index advances before the terminal
events are emitted. -/
def c3chunks : List Chunk :=
  [toolChunk "lookup" "", textChunk "hi"]

/-- Tool, text, tool, text: the second text phase arrives at an advanced
index after the text-start flag is already set. -/
def c10chunks : List Chunk :=
  [toolChunk "t" "", textChunk "a", toolChunk "t" "", textChunk "b"]

/-- C1 (code bug evidence): on the spec §8 tool-call stream the loop state
does accumulate the closed tool block with the parsed input q=x, but the
finally block resets the state before the terminal events are constructed,
so the emitted message_delta carries stop_reason end_turn and an empty
content list — not tool_use with the closed blocks as the claim states. -/
theorem claim_C1_terminal_message_delta :
    session parseQX ids0 "msg_1" "m" c1chunks =
      [Event.message_start "msg_1" "m" 1 1,
       Event.content_block_start 0 (.toolStart "toolu_1" "lookup"),
       Event.content_block_delta 0 (.inputJsonDelta "\x7b\"q\":"),
       Event.content_block_delta 0 (.inputJsonDelta "\"x\"\x7d"),
       Event.content_block_stop 0,
       Event.message_delta "end_turn" [] 100 150,
       Event.message_stop] ∧
    (runLoop parseQX ids0 0 initialState c1chunks).1.currentContentBlocks =
      [{ type := "tool_use", id := some "toolu_1", name := some "lookup",
         input := some qxJson }] := by
  constructor <;> rfl

/-- C2 counterexample: on a stream where text is open and tool_calls
arrive, the translator emits the tool content_block_start at the same
index 0 as the open text block, with no content_block_stop anywhere in the
loop output — the claim requires a stop at the text index and a start at
the advanced index. -/
theorem claim_C2_counterexample :
    (runLoop parse0 ids0 0 initialState c2chunks).2 =
      [Event.content_block_start 0 .textStart,
       Event.content_block_delta 0 (.textDelta "a"),
       Event.content_block_start 0 (.toolStart "toolu_1" "lookup")] ∧
    countStops (runLoop parse0 ids0 0 initialState c2chunks).2 = 0 := by
  constructor <;> rfl

/-- C2 amended: when a delta with non-empty tool_calls arrives while no
tool block is open (in particular while a text block is open), the
translator emits content_block_start for the new tool_use block at the
current, unchanged index, emits no content_block_stop, and does not
advance the index. -/
theorem claim_C2_amended (parse : String → Option JsonV) (toolId : String)
    (s : SState) (d : Delta) (tc : ToolCall) (rest : List ToolCall)
    (htc : d.tool_calls = tc :: rest) (hopen : s.isToolUse = false)
    (_htext : s.hasStartedTextBlock = true) :
    (stepDelta parse toolId s d).2.head? =
      some (Event.content_block_start s.contentBlockIndex
        (.toolStart toolId tc.function.name)) ∧
    countStops (stepDelta parse toolId s d).2 = 0 ∧
    (stepDelta parse toolId s d).1.contentBlockIndex = s.contentBlockIndex := by
  simp only [stepDelta, htc]
  unfold stepToolCalls
  simp only [hopen, Bool.false_eq_true, if_false]
  by_cases harg : strIsEmpty tc.function.arguments = true
  · simp [harg, countStops]
  · simp only [harg, Bool.false_eq_true, if_false]
    cases hp : parse ("" ++ tc.function.arguments) <;>
      simp [hp, countStops]

/-- Witness state for the amended C2: a text block is open at index 0. -/
def c2state : SState :=
  { currentContentBlocks := [{ type := "text", text := some "a" }]
    toolUseJson := ""
    isToolUse := false
    hasStartedTextBlock := true
    contentBlockIndex := 0 }

/-- Witness delta for the amended C2. -/
def c2delta : Delta := { tool_calls := [⟨⟨"lookup", ""⟩⟩] }

/-- Witness for the amended C2 at the concrete open-text-block state. -/
theorem claim_C2_amended_witness :
    (stepDelta parse0 "toolu_1" c2state c2delta).2.head? =
      some (Event.content_block_start 0 (.toolStart "toolu_1" "lookup")) ∧
    countStops (stepDelta parse0 "toolu_1" c2state c2delta).2 = 0 ∧
    (stepDelta parse0 "toolu_1" c2state c2delta).1.contentBlockIndex = 0 :=
  claim_C2_amended parse0 "toolu_1" c2state c2delta ⟨⟨"lookup", ""⟩⟩ [] rfl rfl rfl

/-- C3 (code bug evidence): on a tool-then-text stream the content-block
event indices are 0, 0, 1, 1 during the loop, but the terminal
content_block_stop is emitted at index 0 because the finally block resets
the index first — the full index sequence 0,0,1,1,0 decreases at the end,
contradicting the claimed non-decreasing invariant. -/
theorem claim_C3_indices :
    eventIndices (session parse0 ids0 "msg_1" "m" c3chunks) = [0, 0, 1, 1, 0] ∧
    ¬ List.Chain' (· ≤ ·) (eventIndices (session parse0 ids0 "msg_1" "m" c3chunks)) := by
  have h : eventIndices (session parse0 ids0 "msg_1" "m" c3chunks) = [0, 0, 1, 1, 0] := rfl
  refine ⟨h, ?_⟩
  rw [h]
  simp [List.chain'_cons]

theorem msgDeltaUsages_append (a b : List Event) :
    msgDeltaUsages (a ++ b) = msgDeltaUsages a ++ msgDeltaUsages b := by
  unfold msgDeltaUsages
  exact List.filterMap_append a b _

theorem msgDeltaUsages_step (parse : String → Option JsonV) (toolId : String)
    (s : SState) (d : Delta) :
    msgDeltaUsages (stepDelta parse toolId s d).2 = [] := by
  unfold stepDelta stepToolCalls stepContent
  cases d.tool_calls with
  | cons tc rest =>
    by_cases h1 : s.isToolUse <;>
      by_cases h2 : strIsEmpty tc.function.arguments = true <;>
        simp [h1, h2, msgDeltaUsages]
  | nil =>
    by_cases h0 : strIsEmpty d.content = true
    · simp [h0, msgDeltaUsages]
    · by_cases h1 : s.isToolUse <;>
        by_cases h2 : s.hasStartedTextBlock <;>
          simp [h0, h1, h2, msgDeltaUsages]

theorem msgDeltaUsages_runLoop (parse : String → Option JsonV) (ids : Nat → String) :
    ∀ (chunks : List Chunk) (i : Nat) (s : SState),
      msgDeltaUsages (runLoop parse ids i s chunks).2 = [] := by
  intro chunks
  induction chunks with
  | nil => intro i s; rfl
  | cons c rest ih =>
    intro i s
    unfold runLoop
    cases hgd : getDelta c with
    | none => simpa using ih (i + 1) s
    | some d =>
      simp only [msgDeltaUsages_append]
      rw [msgDeltaUsages_step, ih]
      rfl

/-- C9: in every response session, whatever the request and the upstream
chunks, the message_start event reports usage input 1 and output 1 and the
single message_delta event reports usage input 100 and output 150: the
token counts are constants of the code, not measurements. -/
theorem claim_C9_usage_constants (parse : String → Option JsonV) (ids : Nat → String)
    (msgId model : String) (chunks : List Chunk) :
    (session parse ids msgId model chunks).head? =
      some (.message_start msgId model 1 1) ∧
    msgDeltaUsages (session parse ids msgId model chunks) = [(100, 150)] := by
  constructor
  · rfl
  · unfold session
    show msgDeltaUsages (_ :: _) = _
    unfold msgDeltaUsages
    rw [List.filterMap_cons]
    show msgDeltaUsages (_ ++ finalize cleanupState) = _
    rw [msgDeltaUsages_append, msgDeltaUsages_runLoop]
    rfl

theorem countTextStarts_append (a b : List Event) :
    countTextStarts (a ++ b) = countTextStarts a + countTextStarts b := by
  unfold countTextStarts
  exact List.countP_append _ a b

theorem countTextStarts_step (parse : String → Option JsonV) (toolId : String)
    (s : SState) (d : Delta) :
    countTextStarts (stepDelta parse toolId s d).2 + s.hasStartedTextBlock.toNat
      = (stepDelta parse toolId s d).1.hasStartedTextBlock.toNat := by
  unfold stepDelta stepToolCalls stepContent
  cases d.tool_calls with
  | cons tc rest =>
    by_cases h1 : s.isToolUse <;>
      by_cases h2 : strIsEmpty tc.function.arguments = true <;>
        simp [h1, h2, countTextStarts]
  | nil =>
    by_cases h0 : strIsEmpty d.content = true
    · simp [h0, countTextStarts]
    · by_cases h1 : s.isToolUse <;>
        by_cases h2 : s.hasStartedTextBlock <;>
          simp [h0, h1, h2, countTextStarts]

theorem countTextStarts_runLoop (parse : String → Option JsonV) (ids : Nat → String) :
    ∀ (chunks : List Chunk) (i : Nat) (s : SState),
      countTextStarts (runLoop parse ids i s chunks).2 + s.hasStartedTextBlock.toNat
        = (runLoop parse ids i s chunks).1.hasStartedTextBlock.toNat := by
  intro chunks
  induction chunks with
  | nil => intro i s; simp [runLoop, countTextStarts]
  | cons c rest ih =>
    intro i s
    unfold runLoop
    cases hgd : getDelta c with
    | none => simpa using ih (i + 1) s
    | some d =>
      simp only [countTextStarts_append]
      have h1 := countTextStarts_step parse (ids i) s d
      have h2 := ih (i + 1) (stepDelta parse (ids i) s d).1
      omega

/-- State used by the C10 witness: a session in which the text block has
already been opened. -/
def c10state : SState :=
  { currentContentBlocks := [{ type := "text", text := some "a" }]
    toolUseJson := ""
    isToolUse := false
    hasStartedTextBlock := true
    contentBlockIndex := 0 }

/-- C10: at most one text content_block_start is ever emitted per session:
the hasStartedTextBlock flag is monotone (never reset once set), and on the
tool, text, tool, text stream the second text phase produces a text_delta
at index 2 with no content_block_start at index 2 anywhere in the session
output. -/
theorem claim_C10_single_text_start :
    (∀ (parse : String → Option JsonV) (ids : Nat → String) (msgId model : String)
        (chunks : List Chunk),
      countTextStarts (session parse ids msgId model chunks) ≤ 1) ∧
    (∀ (parse : String → Option JsonV) (toolId : String) (s : SState) (d : Delta),
      s.hasStartedTextBlock = true →
        (stepDelta parse toolId s d).1.hasStartedTextBlock = true) ∧
    ((runLoop parse0 ids0 0 initialState c10chunks).2.countP
        (fun e => match e with
          | Event.content_block_delta 2 (.textDelta "b") => true
          | _ => false) = 1 ∧
      (runLoop parse0 ids0 0 initialState c10chunks).2.countP
        (fun e => match e with
          | Event.content_block_start 2 _ => true
          | _ => false) = 0) := by
  refine ⟨?_, ?_, rfl, rfl⟩
  · intro parse ids msgId model chunks
    have h := countTextStarts_runLoop parse ids chunks 0 initialState
    have hsess : countTextStarts (session parse ids msgId model chunks)
        = countTextStarts (runLoop parse ids 0 initialState chunks).2 := by
      unfold session
      show countTextStarts (_ :: _) = _
      unfold countTextStarts
      rw [List.countP_cons]
      show countTextStarts (_ ++ finalize cleanupState) + _ = _
      rw [countTextStarts_append]
      rfl
    rw [hsess]
    have hb : ((runLoop parse ids 0 initialState chunks).1.hasStartedTextBlock).toNat ≤ 1 := by
      cases (runLoop parse ids 0 initialState chunks).1.hasStartedTextBlock <;> simp
    have h0 : (initialState.hasStartedTextBlock).toNat = 0 := rfl
    rw [h0] at h
    omega
  · intro parse toolId s d hst
    unfold stepDelta stepToolCalls stepContent
    cases d.tool_calls with
    | cons tc rest =>
      by_cases h1 : s.isToolUse <;>
        by_cases h2 : strIsEmpty tc.function.arguments = true <;>
          simp [h1, h2, hst]
    | nil =>
      by_cases h0 : strIsEmpty d.content = true
      · simp [h0, hst]
      · by_cases h1 : s.isToolUse <;> simp [h0, h1, hst]

/-- Witness for C10 at a concrete session and a concrete already-started
state. -/
theorem claim_C10_witness :
    countTextStarts (session parse0 ids0 "msg_1" "m" c10chunks) ≤ 1 ∧
    (stepDelta parse0 "toolu_1" c10state { content := "b" }).1.hasStartedTextBlock = true :=
  ⟨claim_C10_single_text_start.1 parse0 ids0 "msg_1" "m" c10chunks,
    claim_C10_single_text_start.2.1 parse0 "toolu_1" c10state { content := "b" } rfl⟩

theorem countP_lt_of_mem {α : Type} {l : List α} {p q : α → Bool}
    (himp : ∀ x ∈ l, q x = true → p x = true)
    {a : α} (ha : a ∈ l) (hpa : p a = true) (hqa : q a = false) :
    l.countP q < l.countP p := by
  induction l with
  | nil => cases ha
  | cons b t ih =>
    have hmono : t.countP q ≤ t.countP p :=
      List.countP_mono_left (fun x hx hq => himp x (List.mem_cons_of_mem _ hx) hq)
    rcases List.mem_cons.mp ha with rfl | hat
    · have e1 : (if (true : Bool) = true then (1 : Nat) else 0) = 1 := rfl
      have e0 : (if (false : Bool) = true then (1 : Nat) else 0) = 0 := rfl
      rw [List.countP_cons, List.countP_cons, hpa, hqa, e1, e0]
      omega
    · have hi := ih (fun x hx hq => himp x (List.mem_cons_of_mem _ hx) hq) hat
      rw [List.countP_cons, List.countP_cons]
      have hb : (if q b = true then (1 : Nat) else 0) ≤ (if p b = true then (1 : Nat) else 0) := by
        by_cases hqb : q b = true
        · rw [hqb, himp b (List.mem_cons_self b t) hqb]
        · rw [if_neg hqb]
          exact Nat.zero_le _
      omega

theorem unseenCount_le_of_subset {h : JHeap} {s1 s2 : List Nat}
    (hsub : ∀ x, x ∈ s1 → x ∈ s2) :
    unseenCount h s2 ≤ unseenCount h s1 := by
  unfold unseenCount
  apply List.countP_mono_left
  intro x _ hx
  simp only [decide_eq_true_iff] at hx ⊢
  exact fun hmem => hx (hsub x hmem)

theorem unseenCount_cons_lt {h : JHeap} {r : Nat} {seen : List Nat}
    (hr : r < h.length) (hnot : r ∉ seen) :
    unseenCount h (r :: seen) < unseenCount h seen := by
  unfold unseenCount
  refine countP_lt_of_mem ?_ (List.mem_range.mpr hr) ?_ ?_
  · intro x _ hx
    simp only [decide_eq_true_iff] at hx ⊢
    exact fun hmem => hx (List.mem_cons_of_mem _ hmem)
  · simpa using hnot
  · simp

theorem unseenCount_le_length (h : JHeap) (seen : List Nat) :
    unseenCount h seen ≤ h.length := by
  unfold unseenCount
  calc (List.range h.length).countP _ ≤ (List.range h.length).length :=
        List.countP_le_length _
    _ = h.length := List.length_range _

theorem san_mono (h : List NodeContent) : ∀ fuel : Nat,
    (∀ v seen res seen2, sanR h fuel v seen = some (res, seen2) →
      ∀ x, x ∈ seen → x ∈ seen2) ∧
    (∀ items seen l seen2, sanArr h fuel items seen = some (l, seen2) →
      ∀ x, x ∈ seen → x ∈ seen2) ∧
    (∀ fields seen l seen2, sanObj h fuel fields seen = some (l, seen2) →
      ∀ x, x ∈ seen → x ∈ seen2) := by
  intro fuel
  induction fuel with
  | zero =>
    have hR : ∀ v seen res seen2, sanR h 0 v seen = some (res, seen2) →
        ∀ x, x ∈ seen → x ∈ seen2 := by
      intro v seen res seen2 heq x hx
      cases v with
      | prim p =>
        simp only [sanR, Option.some.injEq, Prod.mk.injEq] at heq
        rw [← heq.2]; exact hx
      | ref r =>
        simp only [sanR] at heq
        by_cases hmem : r ∈ seen
        · rw [if_pos hmem] at heq
          simp only [Option.some.injEq, Prod.mk.injEq] at heq
          rw [← heq.2]; exact hx
        · rw [if_neg hmem] at heq
          cases heq
    have hA : ∀ items seen l seen2, sanArr h 0 items seen = some (l, seen2) →
        ∀ x, x ∈ seen → x ∈ seen2 := by
      intro items
      induction items with
      | nil =>
        intro seen l seen2 heq x hx
        simp only [sanArr, Option.some.injEq, Prod.mk.injEq] at heq
        rw [← heq.2]; exact hx
      | cons v rest ihArr =>
        intro seen l seen2 heq x hx
        simp only [sanArr, Option.bind_eq_some] at heq
        obtain ⟨⟨res, seen1⟩, h1, ⟨l2, seen2x⟩, h2, h3⟩ := heq
        have hx1 : x ∈ seen1 := hR v seen res seen1 h1 x hx
        have hx2 : x ∈ seen2x := ihArr seen1 l2 seen2x h2 x hx1
        simp only [] at h3
        cases res with
        | some j =>
          simp only [Option.some.injEq, Prod.mk.injEq] at h3
          rw [← h3.2]; exact hx2
        | none =>
          simp only [Option.some.injEq, Prod.mk.injEq] at h3
          rw [← h3.2]; exact hx2
    have hO : ∀ fields seen l seen2, sanObj h 0 fields seen = some (l, seen2) →
        ∀ x, x ∈ seen → x ∈ seen2 := by
      intro fields
      induction fields with
      | nil =>
        intro seen l seen2 heq x hx
        simp only [sanObj, Option.some.injEq, Prod.mk.injEq] at heq
        rw [← heq.2]; exact hx
      | cons kv rest ihObj =>
        obtain ⟨k, v⟩ := kv
        intro seen l seen2 heq x hx
        simp only [sanObj] at heq
        by_cases hskip : skipRawField v = true
        · rw [if_pos hskip] at heq
          exact ihObj seen l seen2 heq x hx
        · rw [if_neg hskip] at heq
          simp only [Option.bind_eq_some] at heq
          obtain ⟨⟨res, seen1⟩, h1, ⟨l2, seen2x⟩, h2, h3⟩ := heq
          have hx1 : x ∈ seen1 := hR v seen res seen1 h1 x hx
          have hx2 : x ∈ seen2x := ihObj seen1 l2 seen2x h2 x hx1
          simp only [] at h3
          cases res with
          | some j =>
            simp only [] at h3
            by_cases hart : isArtifactJson j = true
            · rw [if_pos hart] at h3
              simp only [Option.some.injEq, Prod.mk.injEq] at h3
              rw [← h3.2]; exact hx2
            · rw [if_neg hart] at h3
              simp only [Option.some.injEq, Prod.mk.injEq] at h3
              rw [← h3.2]; exact hx2
          | none =>
            simp only [Option.some.injEq, Prod.mk.injEq] at h3
            rw [← h3.2]; exact hx2
    exact ⟨hR, hA, hO⟩
  | succ fuel ih =>
    have hR : ∀ v seen res seen2, sanR h (fuel + 1) v seen = some (res, seen2) →
        ∀ x, x ∈ seen → x ∈ seen2 := by
      intro v seen res seen2 heq x hx
      cases v with
      | prim p =>
        simp only [sanR, Option.some.injEq, Prod.mk.injEq] at heq
        rw [← heq.2]; exact hx
      | ref r =>
        simp only [sanR] at heq
        by_cases hmem : r ∈ seen
        · rw [if_pos hmem] at heq
          simp only [Option.some.injEq, Prod.mk.injEq] at heq
          rw [← heq.2]; exact hx
        · rw [if_neg hmem] at heq
          cases hget : h.get? r with
          | none =>
            rw [hget] at heq
            simp only [Option.some.injEq, Prod.mk.injEq] at heq
            rw [← heq.2]; exact hx
          | some node =>
            rw [hget] at heq
            cases node with
            | arrNode items =>
              simp only [Option.bind_eq_some, Option.some.injEq, Prod.mk.injEq] at heq
              obtain ⟨⟨l1, seen1⟩, h1, h2, h3⟩ := heq
              rw [← h3]
              exact ih.2.1 items (r :: seen) l1 seen1 h1 x (List.mem_cons_of_mem _ hx)
            | objNode fields =>
              simp only [Option.bind_eq_some, Option.some.injEq, Prod.mk.injEq] at heq
              obtain ⟨⟨l1, seen1⟩, h1, h2, h3⟩ := heq
              rw [← h3]
              exact ih.2.2 fields (r :: seen) l1 seen1 h1 x (List.mem_cons_of_mem _ hx)
    have hA : ∀ items seen l seen2, sanArr h (fuel + 1) items seen = some (l, seen2) →
        ∀ x, x ∈ seen → x ∈ seen2 := by
      intro items
      induction items with
      | nil =>
        intro seen l seen2 heq x hx
        simp only [sanArr, Option.some.injEq, Prod.mk.injEq] at heq
        rw [← heq.2]; exact hx
      | cons v rest ihArr =>
        intro seen l seen2 heq x hx
        simp only [sanArr, Option.bind_eq_some] at heq
        obtain ⟨⟨res, seen1⟩, h1, ⟨l2, seen2x⟩, h2, h3⟩ := heq
        have hx1 : x ∈ seen1 := hR v seen res seen1 h1 x hx
        have hx2 : x ∈ seen2x := ihArr seen1 l2 seen2x h2 x hx1
        simp only [] at h3
        cases res with
        | some j =>
          simp only [Option.some.injEq, Prod.mk.injEq] at h3
          rw [← h3.2]; exact hx2
        | none =>
          simp only [Option.some.injEq, Prod.mk.injEq] at h3
          rw [← h3.2]; exact hx2
    have hO : ∀ fields seen l seen2, sanObj h (fuel + 1) fields seen = some (l, seen2) →
        ∀ x, x ∈ seen → x ∈ seen2 := by
      intro fields
      induction fields with
      | nil =>
        intro seen l seen2 heq x hx
        simp only [sanObj, Option.some.injEq, Prod.mk.injEq] at heq
        rw [← heq.2]; exact hx
      | cons kv rest ihObj =>
        obtain ⟨k, v⟩ := kv
        intro seen l seen2 heq x hx
        simp only [sanObj] at heq
        by_cases hskip : skipRawField v = true
        · rw [if_pos hskip] at heq
          exact ihObj seen l seen2 heq x hx
        · rw [if_neg hskip] at heq
          simp only [Option.bind_eq_some] at heq
          obtain ⟨⟨res, seen1⟩, h1, ⟨l2, seen2x⟩, h2, h3⟩ := heq
          have hx1 : x ∈ seen1 := hR v seen res seen1 h1 x hx
          have hx2 : x ∈ seen2x := ihObj seen1 l2 seen2x h2 x hx1
          simp only [] at h3
          cases res with
          | some j =>
            simp only [] at h3
            by_cases hart : isArtifactJson j = true
            · rw [if_pos hart] at h3
              simp only [Option.some.injEq, Prod.mk.injEq] at h3
              rw [← h3.2]; exact hx2
            · rw [if_neg hart] at h3
              simp only [Option.some.injEq, Prod.mk.injEq] at h3
              rw [← h3.2]; exact hx2
          | none =>
            simp only [Option.some.injEq, Prod.mk.injEq] at h3
            rw [← h3.2]; exact hx2
    exact ⟨hR, hA, hO⟩

theorem san_some (h : List NodeContent) : ∀ fuel : Nat,
    (∀ v seen, unseenCount h seen < fuel → (sanR h fuel v seen).isSome = true) ∧
    (∀ items seen, unseenCount h seen < fuel →
      (sanArr h fuel items seen).isSome = true) ∧
    (∀ fields seen, unseenCount h seen < fuel →
      (sanObj h fuel fields seen).isSome = true) := by
  intro fuel
  induction fuel with
  | zero =>
    refine ⟨?_, ?_, ?_⟩ <;> intro _ seen hf <;> exact absurd hf (by omega)
  | succ fuel ih =>
    have hR : ∀ v seen, unseenCount h seen < fuel + 1 →
        (sanR h (fuel + 1) v seen).isSome = true := by
      intro v seen hf
      cases v with
      | prim p => simp [sanR]
      | ref r =>
        simp only [sanR]
        by_cases hmem : r ∈ seen
        · rw [if_pos hmem]; rfl
        · rw [if_neg hmem]
          cases hget : h.get? r with
          | none => rfl
          | some node =>
            have hr : r < h.length := by
              by_contra hge
              rw [List.get?_eq_none.mpr (by omega)] at hget
              cases hget
            have hlt : unseenCount h (r :: seen) < fuel := by
              have hstep := unseenCount_cons_lt hr hmem
              omega
            cases node with
            | arrNode items =>
              obtain ⟨pr, hpr⟩ := Option.isSome_iff_exists.mp (ih.2.1 items (r :: seen) hlt)
              simp [hpr]
            | objNode fields =>
              obtain ⟨pr, hpr⟩ := Option.isSome_iff_exists.mp (ih.2.2 fields (r :: seen) hlt)
              simp [hpr]
    have hA : ∀ items seen, unseenCount h seen < fuel + 1 →
        (sanArr h (fuel + 1) items seen).isSome = true := by
      intro items
      induction items with
      | nil => intro seen hf; simp [sanArr]
      | cons v rest ihArr =>
        intro seen hf
        simp only [sanArr]
        obtain ⟨⟨res, seen1⟩, hp⟩ := Option.isSome_iff_exists.mp (hR v seen hf)
        rw [hp]
        simp only [Option.some_bind]
        have hsub : ∀ x, x ∈ seen → x ∈ seen1 :=
          (san_mono h (fuel + 1)).1 v seen res seen1 hp
        have hf1 : unseenCount h seen1 < fuel + 1 :=
          lt_of_le_of_lt (unseenCount_le_of_subset hsub) hf
        obtain ⟨⟨l2, seen2⟩, hq⟩ := Option.isSome_iff_exists.mp (ihArr seen1 hf1)
        cases res <;> simp [hq]
    have hO : ∀ fields seen, unseenCount h seen < fuel + 1 →
        (sanObj h (fuel + 1) fields seen).isSome = true := by
      intro fields
      induction fields with
      | nil => intro seen hf; simp [sanObj]
      | cons kv rest ihObj =>
        obtain ⟨k, v⟩ := kv
        intro seen hf
        simp only [sanObj]
        by_cases hskip : skipRawField v = true
        · rw [if_pos hskip]
          exact ihObj seen hf
        · rw [if_neg hskip]
          obtain ⟨⟨res, seen1⟩, hp⟩ := Option.isSome_iff_exists.mp (hR v seen hf)
          rw [hp]
          simp only [Option.some_bind]
          have hsub : ∀ x, x ∈ seen → x ∈ seen1 :=
            (san_mono h (fuel + 1)).1 v seen res seen1 hp
          have hf1 : unseenCount h seen1 < fuel + 1 :=
            lt_of_le_of_lt (unseenCount_le_of_subset hsub) hf
          obtain ⟨⟨l2, seen2⟩, hq⟩ := Option.isSome_iff_exists.mp (ihObj seen1 hf1)
          cases res with
          | none => simp [hq]
          | some j => by_cases hart : isArtifactJson j = true <;> simp [hq, hart]
    exact ⟨hR, hA, hO⟩

/-- C6: sanitizeJson terminates on every JSON-like value, including values
whose object graph is cyclic: heap size plus one is always enough fuel, so
the recursion never runs out; and any node reached a second time along the
traversal (already in the visited set) is treated as absent — the result
for it is the dropped value and the visited set is unchanged, so the first
occurrence wins and the cycle is broken. -/
theorem claim_C6_sanitizeJson (h : JHeap) (v : RVal) :
    (sanitizeJson h v).isSome = true ∧
    (∀ fuel r seen, r ∈ seen → sanR h fuel (.ref r) seen = some (none, seen)) := by
  constructor
  · unfold sanitizeJson
    refine (san_some h (h.length + 1)).1 v [] ?_
    have := unseenCount_le_length h []
    omega
  · intro fuel r seen hmem
    cases fuel with
    | zero => simp [sanR, hmem]
    | succ fuel => simp [sanR, hmem]

/-- Heap with a single self-referencing object: the canonical cyclic
value. -/
def cycHeap : JHeap := [NodeContent.objNode [("self", RVal.ref 0)]]

/-- Witness for C6 on the self-referencing heap: sanitization succeeds, a
revisited node is dropped, and the concrete result breaks the cycle by
keeping the object and dropping its self field. -/
theorem claim_C6_witness :
    (sanitizeJson cycHeap (.ref 0)).isSome = true ∧
    sanR cycHeap 5 (.ref 0) [0] = some (none, [0]) ∧
    sanitizeJson cycHeap (.ref 0) = some (some (.jobj []), [0]) := by
  refine ⟨(claim_C6_sanitizeJson cycHeap (.ref 0)).1,
    (claim_C6_sanitizeJson cycHeap (.ref 0)).2 5 0 [0] (by decide), ?_⟩
  simp [sanitizeJson, cycHeap, sanR, sanObj, skipRawField]

end CCR
